import Mathlib

set_option maxHeartbeats 1000000

/-!
Verification development for the `mylifeai` client-side application.

The development shallowly embeds the reactive-store utility
(`createStore` / `setState` / `shallowEqual` from the store module),
the action builders (`createAsyncAction`, `createOptimisticAction`),
the chunk-loading retry helper (`retryImport`), the advanced error
boundary (`AdvancedErrorBoundary`), the login form schema
(`loginSchema`) and the error reporting service
(`ErrorReportingService.storeError`), and proves the specification
claims about them.

JavaScript plain objects are embedded as ordered association lists
from string keys to values (`Obj`), which models property insertion
order, the object-spread operator, and `Object.keys`/`Object.is`
exactly for the data handled by the store.
-/

/-- A JavaScript plain object: an ordered association list from string
keys to values.  Well-formed objects have no duplicate keys; the
duplicate-free hypothesis is carried explicitly where a proof needs it. -/
abbrev Obj (V : Type) := List (String × V)

/-- Property read `o[k]`: the value of the first entry with key `k`. -/
def getVal {V : Type} : Obj V → String → Option V
  | [], _ => none
  | (k2, v) :: rest, k => if k2 = k then some v else getVal rest k

/-- `Object.keys o`: the keys in insertion order. -/
def keys {V : Type} (o : Obj V) : List String := o.map Prod.fst

/-- Property write `o[k] = v` as performed by object spread: an existing
key keeps its position and receives the new value, a fresh key is
appended at the end. -/
def setVal {V : Type} (o : Obj V) (k : String) (v : V) : Obj V :=
  if (getVal o k).isSome then
    o.map (fun p => if p.1 = k then (k, v) else p)
  else
    o ++ [(k, v)]

/-- The object-spread merge `{...a, ...b}`: each entry of `b` is
assigned onto a copy of `a`, in order. -/
def spread {V : Type} (a b : Obj V) : Obj V :=
  b.foldl (fun acc p => setVal acc p.1 p.2) a

/-- The value of the *last* entry of `o` with key `k`; this is the
value that survives when `o` is spread onto another object. -/
def lastVal {V : Type} : Obj V → String → Option V
  | [], _ => none
  | (k2, v) :: rest, k =>
    match lastVal rest k with
    | some w => some w
    | none => if k2 = k then some v else none

/-- The `shallowEqual` utility from the store module: reference
equality short-circuit, then key-count comparison, then per-key
`hasOwnProperty` and `Object.is` comparison. -/
def shallowEqual {V : Type} [DecidableEq V] (a b : Obj V) : Bool :=
  if a = b then true
  else if (keys a).length ≠ (keys b).length then false
  else (keys a).all fun k => (getVal b k).isSome && decide (getVal a k = getVal b k)

section ObjLemmas

variable {V : Type}

@[simp] theorem getVal_nil (k : String) : getVal ([] : Obj V) k = none := rfl

theorem getVal_cons (k2 : String) (v : V) (rest : Obj V) (k : String) :
    getVal ((k2, v) :: rest) k = if k2 = k then some v else getVal rest k := rfl

@[simp] theorem keys_nil : keys ([] : Obj V) = [] := rfl

@[simp] theorem keys_cons (p : String × V) (rest : Obj V) :
    keys (p :: rest) = p.1 :: keys rest := rfl

theorem getVal_eq_none_iff (o : Obj V) (k : String) :
    getVal o k = none ↔ k ∉ keys o := by
  induction o with
  | nil => simp
  | cons p rest ih =>
    obtain ⟨k2, v⟩ := p
    rw [getVal_cons, keys_cons]
    by_cases h : k2 = k
    · subst h
      simp
    · rw [if_neg h, ih]
      simp only [List.mem_cons]
      constructor
      · rintro hnm (h1 | h1)
        · exact h h1.symm
        · exact hnm h1
      · intro hmem h1
        exact hmem (Or.inr h1)

theorem getVal_isSome_iff (o : Obj V) (k : String) :
    (getVal o k).isSome = true ↔ k ∈ keys o := by
  rcases hg : getVal o k with _ | v
  · simp [(getVal_eq_none_iff o k).mp hg]
  · have hmem : k ∈ keys o := by
      by_contra hmem
      have hnone := (getVal_eq_none_iff o k).mpr hmem
      rw [hg] at hnone
      exact Option.noConfusion hnone
    simp [hmem]

theorem getVal_append (a b : Obj V) (k : String) :
    getVal (a ++ b) k =
      match getVal a k with
      | some v => some v
      | none => getVal b k := by
  induction a with
  | nil => simp
  | cons p rest ih =>
    obtain ⟨k2, v⟩ := p
    by_cases h : k2 = k
    · rw [List.cons_append, getVal_cons, getVal_cons, if_pos h, if_pos h]
    · rw [List.cons_append, getVal_cons, getVal_cons, if_neg h, if_neg h, ih]

theorem getVal_map_assign (o : Obj V) (k : String) (v : V) (hk : k ∈ keys o) :
    getVal (o.map (fun p => if p.1 = k then (k, v) else p)) k = some v := by
  induction o with
  | nil => simp at hk
  | cons p rest ih =>
    obtain ⟨k2, w⟩ := p
    rw [List.map_cons]
    by_cases h : k2 = k
    · have heq : (if ((k2, w) : String × V).1 = k then (k, v) else (k2, w)) = (k, v) :=
        if_pos h
      rw [heq, getVal_cons, if_pos rfl]
    · have heq : (if ((k2, w) : String × V).1 = k then (k, v) else (k2, w)) = (k2, w) :=
        if_neg h
      rw [heq, getVal_cons, if_neg h]
      apply ih
      rcases List.mem_cons.mp hk with h1 | h1
      · exact absurd h1.symm h
      · exact h1

theorem getVal_setVal_self (o : Obj V) (k : String) (v : V) :
    getVal (setVal o k v) k = some v := by
  unfold setVal
  by_cases hs : (getVal o k).isSome = true
  · rw [if_pos hs]
    exact getVal_map_assign o k v ((getVal_isSome_iff o k).mp hs)
  · rw [if_neg hs, getVal_append]
    have hnone : getVal o k = none := by
      rcases hg : getVal o k with _ | w
      · rfl
      · rw [hg] at hs
        simp at hs
    rw [hnone, getVal_cons, if_pos rfl]

theorem getVal_setVal_ne (o : Obj V) (k k2 : String) (v : V) (h : k2 ≠ k) :
    getVal (setVal o k v) k2 = getVal o k2 := by
  unfold setVal
  by_cases hs : (getVal o k).isSome = true
  · rw [if_pos hs]
    clear hs
    induction o with
    | nil => simp
    | cons p rest ih =>
      obtain ⟨k3, w⟩ := p
      rw [List.map_cons]
      by_cases h3 : k3 = k
      · have heq : (if ((k3, w) : String × V).1 = k then (k, v) else (k3, w)) = (k, v) :=
          if_pos h3
        have hne : k3 ≠ k2 := by
          rw [h3]
          exact Ne.symm h
        rw [heq, getVal_cons, getVal_cons, if_neg (Ne.symm h), if_neg hne, ih]
      · have heq : (if ((k3, w) : String × V).1 = k then (k, v) else (k3, w)) = (k3, w) :=
          if_neg h3
        rw [heq, getVal_cons, getVal_cons, ih]
  · rw [if_neg hs, getVal_append]
    cases hg : getVal o k2 with
    | none =>
      show getVal [(k, v)] k2 = none
      rw [getVal_cons, if_neg (Ne.symm h)]
      rfl
    | some w => rfl

theorem keys_setVal_of_mem (o : Obj V) (k : String) (v : V) (hk : k ∈ keys o) :
    keys (setVal o k v) = keys o := by
  unfold setVal
  rw [if_pos ((getVal_isSome_iff o k).mpr hk)]
  unfold keys
  rw [List.map_map]
  apply List.map_congr_left
  intro p _
  by_cases hpk : p.1 = k
  · simp [hpk]
  · simp [hpk]

theorem keys_setVal_of_not_mem (o : Obj V) (k : String) (v : V) (hk : k ∉ keys o) :
    keys (setVal o k v) = keys o ++ [k] := by
  unfold setVal
  rw [if_neg]
  · unfold keys
    rw [List.map_append]
    rfl
  · intro hs
    exact hk ((getVal_isSome_iff o k).mp hs)

theorem mem_keys_setVal (o : Obj V) (k k2 : String) (v : V) :
    k2 ∈ keys (setVal o k v) ↔ k2 ∈ keys o ∨ k2 = k := by
  by_cases hk : k ∈ keys o
  · rw [keys_setVal_of_mem o k v hk]
    constructor
    · exact Or.inl
    · rintro (h | h)
      · exact h
      · exact h ▸ hk
  · rw [keys_setVal_of_not_mem o k v hk]
    simp

theorem nodup_keys_setVal (o : Obj V) (k : String) (v : V)
    (h : (keys o).Nodup) : (keys (setVal o k v)).Nodup := by
  by_cases hk : k ∈ keys o
  · rw [keys_setVal_of_mem o k v hk]
    exact h
  · rw [keys_setVal_of_not_mem o k v hk]
    rw [List.nodup_append]
    refine ⟨h, List.nodup_singleton k, ?_⟩
    rw [List.disjoint_singleton]
    exact hk

end ObjLemmas

section SpreadLemmas

variable {V : Type}

theorem spread_nil (a : Obj V) : spread a [] = a := rfl

theorem spread_cons (a : Obj V) (k : String) (v : V) (b : Obj V) :
    spread a ((k, v) :: b) = spread (setVal a k v) b := rfl

@[simp] theorem lastVal_nil (k : String) : lastVal ([] : Obj V) k = none := rfl

theorem lastVal_cons (k2 : String) (v : V) (rest : Obj V) (k : String) :
    lastVal ((k2, v) :: rest) k =
      match lastVal rest k with
      | some w => some w
      | none => if k2 = k then some v else none := rfl

theorem lastVal_eq_none_of_not_mem (o : Obj V) (k : String) (h : k ∉ keys o) :
    lastVal o k = none := by
  induction o with
  | nil => rfl
  | cons p rest ih =>
    obtain ⟨k2, v⟩ := p
    have h2 : k ∉ keys rest := fun hm => h (List.mem_cons.mpr (Or.inr hm))
    have hne : k2 ≠ k := by
      intro he
      exact h (List.mem_cons.mpr (Or.inl he.symm))
    rw [lastVal_cons, ih h2, if_neg hne]

theorem lastVal_eq_getVal_of_nodup (o : Obj V) (k : String)
    (h : (keys o).Nodup) : lastVal o k = getVal o k := by
  induction o with
  | nil => rfl
  | cons p rest ih =>
    obtain ⟨k2, v⟩ := p
    rw [keys_cons, List.nodup_cons] at h
    rw [lastVal_cons, getVal_cons, ih h.2]
    by_cases hk : k2 = k
    · subst hk
      have : getVal rest k2 = none :=
        (getVal_eq_none_iff rest k2).mpr h.1
      rw [this, if_pos rfl]
    · cases getVal rest k with
      | none => simp [hk]
      | some w => simp [hk]

theorem getVal_spread (b a : Obj V) (k : String) :
    getVal (spread a b) k =
      match lastVal b k with
      | some w => some w
      | none => getVal a k := by
  induction b generalizing a with
  | nil => rfl
  | cons p rest ih =>
    obtain ⟨k2, v⟩ := p
    rw [spread_cons, ih, lastVal_cons]
    cases hl : lastVal rest k with
    | some w => rfl
    | none =>
      by_cases hk : k2 = k
      · subst hk
        rw [if_pos rfl, getVal_setVal_self]
      · rw [if_neg hk, getVal_setVal_ne a k2 k v (Ne.symm hk)]

theorem getVal_spread_not_mem (a b : Obj V) (k : String) (h : k ∉ keys b) :
    getVal (spread a b) k = getVal a k := by
  rw [getVal_spread, lastVal_eq_none_of_not_mem b k h]

theorem getVal_spread_mem (a b : Obj V) (k : String)
    (hn : (keys b).Nodup) (h : k ∈ keys b) :
    getVal (spread a b) k = getVal b k := by
  rw [getVal_spread, lastVal_eq_getVal_of_nodup b k hn]
  cases hg : getVal b k with
  | none => exact absurd ((getVal_eq_none_iff b k).mp hg) (by simp [h])
  | some w => rfl

theorem mem_keys_spread (a b : Obj V) (k : String) :
    k ∈ keys (spread a b) ↔ k ∈ keys a ∨ k ∈ keys b := by
  induction b generalizing a with
  | nil => simp [spread_nil]
  | cons p rest ih =>
    obtain ⟨k2, v⟩ := p
    rw [spread_cons, ih, mem_keys_setVal, keys_cons, List.mem_cons]
    constructor
    · rintro ((h | h) | h)
      · exact Or.inl h
      · exact Or.inr (Or.inl h)
      · exact Or.inr (Or.inr h)
    · rintro (h | h | h)
      · exact Or.inl (Or.inl h)
      · exact Or.inl (Or.inr h)
      · exact Or.inr h

theorem keys_spread_of_subset (a b : Obj V)
    (h : ∀ k, k ∈ keys b → k ∈ keys a) : keys (spread a b) = keys a := by
  induction b generalizing a with
  | nil => rfl
  | cons p rest ih =>
    obtain ⟨k2, v⟩ := p
    have hk2 : k2 ∈ keys a := h k2 (List.mem_cons.mpr (Or.inl rfl))
    rw [spread_cons, ih]
    · exact keys_setVal_of_mem a k2 v hk2
    · intro k hk
      rw [keys_setVal_of_mem a k2 v hk2]
      exact h k (List.mem_cons.mpr (Or.inr hk))

theorem keys_spread_extends (a b : Obj V) :
    ∃ ext, keys (spread a b) = keys a ++ ext := by
  induction b generalizing a with
  | nil => exact ⟨[], by rw [spread_nil, List.append_nil]⟩
  | cons p rest ih =>
    obtain ⟨k2, v⟩ := p
    rw [spread_cons]
    obtain ⟨ext, hext⟩ := ih (setVal a k2 v)
    by_cases hk : k2 ∈ keys a
    · exact ⟨ext, by rw [hext, keys_setVal_of_mem a k2 v hk]⟩
    · refine ⟨[k2] ++ ext, ?_⟩
      rw [hext, keys_setVal_of_not_mem a k2 v hk, List.append_assoc]

theorem nodup_keys_spread (a b : Obj V) (h : (keys a).Nodup) :
    (keys (spread a b)).Nodup := by
  induction b generalizing a with
  | nil => exact h
  | cons p rest ih =>
    obtain ⟨k2, v⟩ := p
    rw [spread_cons]
    exact ih (setVal a k2 v) (nodup_keys_setVal a k2 v h)

/-- Objects with identical key sequences and identical property reads
are identical. -/
theorem obj_eq_of_getVal_eq (a b : Obj V) (hk : keys a = keys b)
    (hnd : (keys a).Nodup) (h : ∀ k, getVal a k = getVal b k) : a = b := by
  induction a generalizing b with
  | nil =>
    cases b with
    | nil => rfl
    | cons q rest => exact absurd hk (by simp)
  | cons p resta ih =>
    obtain ⟨k2, v⟩ := p
    cases b with
    | nil => exact absurd hk (by simp)
    | cons q restb =>
      obtain ⟨k3, w⟩ := q
      rw [keys_cons, keys_cons] at hk
      have hkk : k2 = k3 := by
        have := congrArg (fun l => l.head?) hk
        simpa using this
      have htl : keys resta = keys restb := by
        have := congrArg (fun l => l.tail) hk
        simpa using this
      rw [keys_cons, List.nodup_cons] at hnd
      have hv : v = w := by
        have hh := h k2
        rw [getVal_cons, getVal_cons, if_pos rfl, hkk, if_pos rfl] at hh
        exact Option.some.inj hh
      have hrest : resta = restb := by
        apply ih restb htl hnd.2
        intro k
        by_cases hk2 : k2 = k
        · subst hk2
          have h1 : getVal resta k2 = none :=
            (getVal_eq_none_iff resta k2).mpr hnd.1
          have h2 : getVal restb k2 = none := by
            apply (getVal_eq_none_iff restb k2).mpr
            rw [← htl]
            exact hnd.1
          rw [h1, h2]
        · have hh := h k
          rw [getVal_cons, getVal_cons, if_neg hk2, if_neg (hkk ▸ hk2)] at hh
          exact hh
      rw [hkk, hv, hrest]

end SpreadLemmas

section ShallowEqualLemmas

variable {V : Type} [DecidableEq V]

@[simp] theorem shallowEqual_self (a : Obj V) : shallowEqual a a = true := by
  unfold shallowEqual
  rw [if_pos rfl]

/-- Soundness of `shallowEqual` on duplicate-free objects: a `true`
answer means the two objects have identical property reads. -/
theorem shallowEqual_getVal (a b : Obj V)
    (hna : (keys a).Nodup) (hnb : (keys b).Nodup)
    (h : shallowEqual a b = true) : ∀ k, getVal a k = getVal b k := by
  unfold shallowEqual at h
  by_cases hab : a = b
  · subst hab
    exact fun k => rfl
  · rw [if_neg hab] at h
    by_cases hlen : (keys a).length ≠ (keys b).length
    · rw [if_pos hlen] at h
      exact absurd h (by simp)
    · rw [if_neg hlen] at h
      push_neg at hlen
      rw [List.all_eq_true] at h
      have hall : ∀ k, k ∈ keys a →
          (getVal b k).isSome = true ∧ getVal a k = getVal b k := by
        intro k hk
        have := h k hk
        rw [Bool.and_eq_true] at this
        exact ⟨this.1, of_decide_eq_true this.2⟩
      have hsub : ∀ k, k ∈ keys a → k ∈ keys b := by
        intro k hk
        exact (getVal_isSome_iff b k).mp (hall k hk).1
      have hseteq : (keys a).toFinset = (keys b).toFinset := by
        apply Finset.eq_of_subset_of_card_le
        · intro k hk
          rw [List.mem_toFinset] at hk ⊢
          exact hsub k hk
        · rw [List.toFinset_card_of_nodup hna, List.toFinset_card_of_nodup hnb, hlen]
      intro k
      by_cases hk : k ∈ keys a
      · exact (hall k hk).2
      · have hkb : k ∉ keys b := by
          intro hkb
          apply hk
          have hmem : k ∈ (keys b).toFinset := List.mem_toFinset.mpr hkb
          rw [← hseteq] at hmem
          exact List.mem_toFinset.mp hmem
        rw [(getVal_eq_none_iff a k).mpr hk, (getVal_eq_none_iff b k).mpr hkb]

end ShallowEqualLemmas

/-!
## The store

`createStore` keeps three pieces of mutable state that the claims are
about: the current state object, the `localStorage` slot addressed by
`persistKey` (modelled as the parsed object stored there, `none` when
absent), and the subscribed listeners (modelled by how many
notification rounds have been run).  `persist` records whether a
`persistKey` was supplied at creation, and `storageOk` whether
`localStorage.setItem` calls succeed in this store's browser
environment — `setState` wraps the write in try/catch and swallows the
failure (quota, privacy mode), leaving the previous persisted value.
-/

/-- The observable state of one store created by `createStore`. -/
structure StoreState (V : Type) where
  persist : Bool
  storageOk : Bool
  state : Obj V
  storage : Option (Obj V)
  notifications : Nat
deriving DecidableEq

/-- The state a store starts with: the caller's `initialState` merged
with the JSON-parsed persisted object, when loading and parsing
succeed; on any failure (no stored value, load error, parse error) the
`initialState` alone.  Mirrors the `persistKey` block of `createStore`. -/
def createStoreInit {V : Type} (initialState : Obj V) (loaded : Option (Obj V)) : Obj V :=
  match loaded with
  | some persisted => spread initialState persisted
  | none => initialState

/-- `store.setState(partial)` with an object argument: merge, compare
with `shallowEqual`, and only on a change install the new state, try
to persist it when a `persistKey` was given (a `localStorage.setItem`
failure is caught and only logged, so the old persisted value
remains), and notify the listeners.  (The function-argument form first
computes `partial(state)` and then runs this code on the resulting
object.) -/
def setState {V : Type} [DecidableEq V] (s : StoreState V) (updObj : Obj V) : StoreState V :=
  let newState := spread s.state updObj
  if shallowEqual s.state newState then s
  else
    { persist := s.persist
      storageOk := s.storageOk
      state := newState
      storage := if s.persist && s.storageOk then some newState else s.storage
      notifications := s.notifications + 1 }

section StoreLemmas

variable {V : Type} [DecidableEq V]

/-- On duplicate-free state the `shallowEqual` guard in `setState` is
invisible at the level of the state object: the state after
`setState` is always the spread merge. -/
theorem setState_state (s : StoreState V) (p : Obj V)
    (hnd : (keys s.state).Nodup) : (setState s p).state = spread s.state p := by
  unfold setState
  by_cases hsh : shallowEqual s.state (spread s.state p) = true
  · rw [if_pos hsh]
    by_cases hab : s.state = spread s.state p
    · exact hab
    · have hvals := shallowEqual_getVal s.state (spread s.state p) hnd
        (nodup_keys_spread s.state p hnd) hsh
      have hkeys : keys s.state = keys (spread s.state p) := by
        obtain ⟨ext, hext⟩ := keys_spread_extends s.state p
        have hlen : (keys s.state).length = (keys (spread s.state p)).length := by
          unfold shallowEqual at hsh
          rw [if_neg hab] at hsh
          by_cases hl : (keys s.state).length ≠ (keys (spread s.state p)).length
          · rw [if_pos hl] at hsh
            exact absurd hsh (by simp)
          · push_neg at hl
            exact hl
        have hext0 : ext = [] := by
          have hlen2 := congrArg List.length hext
          rw [List.length_append, ← hlen] at hlen2
          have hlen0 : ext.length = 0 := by omega
          exact List.length_eq_zero.mp hlen0
        rw [hext, hext0, List.append_nil]
      exact obj_eq_of_getVal_eq s.state (spread s.state p) hkeys hnd hvals
  · rw [if_neg hsh]

theorem nodup_setState (s : StoreState V) (p : Obj V)
    (hnd : (keys s.state).Nodup) : (keys (setState s p).state).Nodup := by
  rw [setState_state s p hnd]
  exact nodup_keys_spread s.state p hnd

theorem setState_persist (s : StoreState V) (p : Obj V) :
    (setState s p).persist = s.persist := by
  unfold setState
  by_cases hsh : shallowEqual s.state (spread s.state p) = true
  · rw [if_pos hsh]
  · rw [if_neg hsh]

/-- When `setState` actually changes the state, the new full state is
written to the store's `localStorage` slot (when persistence is on and
the write does not throw) and one listener notification round runs. -/
theorem setState_changed (s : StoreState V) (p : Obj V)
    (h : (setState s p).state ≠ s.state) :
    (setState s p).storage =
      (if s.persist && s.storageOk then some (setState s p).state else s.storage) ∧
    (setState s p).notifications = s.notifications + 1 := by
  unfold setState at h ⊢
  by_cases hsh : shallowEqual s.state (spread s.state p) = true
  · rw [if_pos hsh] at h
    exact absurd rfl h
  · rw [if_neg hsh]
    exact ⟨rfl, rfl⟩

end StoreLemmas

/-!
## Store actions

`createActions(store)` produces two action builders.  An invocation of
a built action is modelled as a function of the store state; the
wrapped async function is a black box whose outcome is an `Except`
value (`.ok` = the promise resolved, `.error` = it rejected), and is
assumed not to touch the store itself before settling.
-/

/-- JavaScript values that appear in the store states handled by the
actions: `null`, booleans, numbers, strings (errors travel as
arbitrary such values). -/
inductive JVal where
  | null : JVal
  | bool : Bool → JVal
  | num : Int → JVal
  | str : String → JVal
deriving DecidableEq

/-- The first half of an invocation of a `createAsyncAction(name, fn)`
action: `setState({ [nameLoading]: true, [nameError]: null })`. -/
def asyncActionStart (name : String) (s : StoreState JVal) : StoreState JVal :=
  setState s [(name ++ "Loading", JVal.bool true), (name ++ "Error", JVal.null)]

/-- A whole invocation of a `createAsyncAction(name, fn)` action, with
the async outcome `res`: set the loading/error flags, await the
function, then clear the loading flag (recording the error and
rethrowing it on rejection). -/
def runAsyncAction (name : String) (res : Except JVal JVal) (s : StoreState JVal) :
    StoreState JVal × Except JVal JVal :=
  let s1 := asyncActionStart name s
  match res with
  | Except.ok r => (setState s1 [(name ++ "Loading", JVal.bool false)], Except.ok r)
  | Except.error e =>
      (setState s1 [(name ++ "Loading", JVal.bool false), (name ++ "Error", e)],
       Except.error e)

/-- The first half of an invocation of a
`createOptimisticAction(name, optimisticUpdate, fn)` action: read
`currentState` and apply the optimistic partial update to the store. -/
def optimisticActionStart {V : Type} [DecidableEq V]
    (upd : Obj V → Obj V) (s : StoreState V) : StoreState V :=
  setState s (upd s.state)

/-- A whole invocation of a `createOptimisticAction` action with async
outcome `res`: apply the optimistic update; on resolution return the
result, on rejection call `setState(currentState)` and rethrow. -/
def runOptimisticAction {V : Type} [DecidableEq V] (E R : Type)
    (upd : Obj V → Obj V) (res : Except E R) (s : StoreState V) :
    StoreState V × Except E R :=
  let currentState := s.state
  let s1 := optimisticActionStart upd s
  match res with
  | Except.ok r => (s1, Except.ok r)
  | Except.error e => (setState s1 currentState, Except.error e)

/-!
## Chunk-loading retry (`retryImport`) and the error boundary retry

`retryImport(importFn, retryCount)` is modelled over an arbitrary
sequence of attempt outcomes `attempt : Nat → Except E A` (the i-th
call of `importFn`).  Besides the final outcome it returns the list of
delays (in milliseconds, as rationals since `Math.pow(2, 3 - retryCount)`
is fractional for `retryCount > 3`) awaited before each retry, in order.
-/

/-- The delay `Math.pow(2, 3 - retryCount) * 1000` awaited when a
failure is retried while the counter is `r`. -/
def retryDelay (r : Nat) : ℚ := (2 : ℚ) ^ ((3 : ℤ) - (r : ℤ)) * 1000

/-- `retryImport importFn retryCount` starting from the `i`-th attempt:
the pair of (final outcome, delays awaited before the successive
retries). -/
def retryImport {E A : Type} (attempt : Nat → Except E A) : Nat → Nat → Except E A × List ℚ
  | 0, i =>
    match attempt i with
    | Except.ok a => (Except.ok a, [])
    | Except.error e => (Except.error e, [])
  | r2 + 1, i =>
    match attempt i with
    | Except.ok a => (Except.ok a, [])
    | Except.error _ =>
      let rest := retryImport attempt r2 (i + 1)
      (rest.1, retryDelay (r2 + 1) :: rest.2)

/-- Whether an async outcome is a rejection. -/
def isRejected {E A : Type} : Except E A → Bool
  | Except.ok _ => false
  | Except.error _ => true

/-- Fallback levels of `AdvancedErrorBoundary`. -/
inductive Level where
  | page : Level
  | feature : Level
  | component : Level
deriving DecidableEq

/-- `AdvancedErrorBoundary.maxRetries`. -/
def maxRetries : Nat := 3

/-- The delay `Math.pow(2, this.state.retryCount) * 1000` used by
`AdvancedErrorBoundary.scheduleRetry` (milliseconds). -/
def scheduleRetryDelay (retryCount : Nat) : Nat := 2 ^ retryCount * 1000

/-- The condition under which `AdvancedErrorBoundary.componentDidCatch`
schedules a delayed automatic retry of the failed render:
`this.props.level === 'component' && this.state.retryCount < this.maxRetries`. -/
def autoRetryOnCatch (level : Option Level) (retryCount : Nat) : Bool :=
  decide (level = some Level.component) && decide (retryCount < maxRetries)

/-!
## `AdvancedErrorBoundary.render`
-/

/-- Error-boundary component props relevant to rendering: the children,
an optional caller-supplied fallback renderer (given the captured
error; the retry callback it also receives does not affect what is
rendered), and the optional `level`. -/
structure EBProps (E A : Type) where
  children : A
  fallback : Option (E → A)
  level : Option Level

/-- Error-boundary component state. -/
structure EBState (E : Type) where
  hasError : Bool
  error : Option E
  errorRetryCount : Nat

/-- What one `render()` call of the boundary produces. -/
inductive RenderResult (A : Type) where
  | children : A → RenderResult A
  | custom : A → RenderResult A
  | defaultFallback : Level → RenderResult A
deriving DecidableEq

/-- `AdvancedErrorBoundary.render`: with a captured error render the
caller's fallback or the level-appropriate default fallback
(`level` defaulting to `'component'`); otherwise render the children.
The function is total: a captured error is never rethrown to the
parent. -/
def render {E A : Type} (p : EBProps E A) (st : EBState E) : RenderResult A :=
  match st.hasError, st.error with
  | true, some e =>
    match p.fallback with
    | some f => RenderResult.custom (f e)
    | none => RenderResult.defaultFallback (p.level.getD Level.component)
  | _, _ => RenderResult.children p.children

/-!
## `loginSchema`

`z.object({ emailOrUsername: z.string().min(1, ...).refine(...), password:
z.string().min(6, ...).max(128, ...) })`.  Zod runs the checks of a field
in order and stops at the first failing one; the issues of the two
fields are collected into one error.  Zod's min/max use JavaScript's
`String.prototype.length`, which counts UTF-16 *code units* — a
supplementary-plane character counts as 2 — so all length checks are
embedded through `utf16Length`, not the codepoint count.
-/

/-- The number of UTF-16 code units a codepoint occupies in a
JavaScript string: 2 for supplementary-plane characters, otherwise 1. -/
def utf16Len (c : Char) : Nat :=
  if c.toNat < 0x10000 then 1 else 2

/-- JavaScript's `String.prototype.length`: the number of UTF-16 code
units of the string. -/
def utf16Length (s : String) : Nat :=
  (s.data.map utf16Len).sum

/-- A character matched by the JavaScript regex class `\s`. -/
def isSpaceChar (c : Char) : Bool :=
  [9, 10, 11, 12, 13, 32, 160, 0x1680, 0x2000, 0x2001, 0x2002, 0x2003, 0x2004,
    0x2005, 0x2006, 0x2007, 0x2008, 0x2009, 0x200A, 0x2028, 0x2029, 0x202F,
    0x205F, 0x3000, 0xFEFF].contains c.toNat

/-- A character matched by `[^\s@]`. -/
def emailCharOk (c : Char) : Bool :=
  !(isSpaceChar c) && !(c = '@')

/-- One `[^\s@]+` part of the email pattern: nonempty, every character
allowed. -/
def emailPartOk (l : List Char) : Bool :=
  !l.isEmpty && l.all emailCharOk

/-- All ways of writing `l` as `before ++ [c] ++ after`. -/
def splitPoints {A : Type} : List A → List (List A × A × List A)
  | [] => []
  | c :: rest =>
    ([], c, rest) :: (splitPoints rest).map (fun x => (c :: x.1, x.2.1, x.2.2))

/-- Whether `t` matches `[^\s@]+\.[^\s@]+` (anchored on both sides). -/
def emailTailMatch (t : List Char) : Bool :=
  (splitPoints t).any fun x => x.2.1 = '.' && emailPartOk x.1 && emailPartOk x.2.2

/-- Whether `s` matches the email pattern of the login schema (anchored
on both sides): some decomposition `local @ rest` with `rest`
containing a dot separating two further nonempty `[^\s@]+` parts. -/
def emailRegexMatch (s : String) : Bool :=
  (splitPoints s.data).any fun x => x.2.1 = '@' && emailPartOk x.1 && emailTailMatch x.2.2

/-- A character matched by `[a-zA-Z0-9_.-]`. -/
def usernameCharOk (c : Char) : Bool :=
  (decide ('a' ≤ c) && decide (c ≤ 'z')) ||
  (decide ('A' ≤ c) && decide (c ≤ 'Z')) ||
  (decide ('0' ≤ c) && decide (c ≤ '9')) ||
  c = '_' || c = '.' || c = '-'

/-- The refinement of the `emailOrUsername` field: a valid email or a
valid username (`value.length >= 3`, in UTF-16 code units, and only
characters of `[a-zA-Z0-9_.-]`). -/
def emailOrUsernameOk (v : String) : Bool :=
  emailRegexMatch v || (decide (3 ≤ utf16Length v) && v.data.all usernameCharOk)

/-- Validation of the `emailOrUsername` field: the error message of the
first failing check, or `none` when the field is valid. -/
def validateEmailOrUsername (v : String) : Option String :=
  if utf16Length v < 1 then some "Username or email is required"
  else if emailOrUsernameOk v then none
  else some "Please enter a valid email address or username (min 3 characters)"

/-- Validation of the `password` field (lengths in UTF-16 code units,
as JavaScript's `.length` counts them). -/
def validatePassword (p : String) : Option String :=
  if utf16Length p < 6 then some "Password must be at least 6 characters"
  else if 128 < utf16Length p then some "Password must be less than 128 characters"
  else none

/-- A parsed login form. -/
structure LoginInput where
  emailOrUsername : String
  password : String
deriving DecidableEq

/-- `loginSchema.safeParse`: on success the validated value, on failure
the list of `(field path, message)` issues. -/
def loginSchemaValidate (inp : LoginInput) : Except (List (String × String)) LoginInput :=
  match validateEmailOrUsername inp.emailOrUsername, validatePassword inp.password with
  | none, none => Except.ok inp
  | e1, e2 =>
    Except.error
      ((e1.map (fun m => ("emailOrUsername", m))).toList ++
       (e2.map (fun m => ("password", m))).toList)

/-!
## Error reporting service

`ErrorReportingService.storeError`: push the report, trim the in-memory
list to the last `maxErrors` entries, and try to persist the last 10 to
`localStorage['error_reports']` (ignoring storage failures).
-/

/-- `ErrorReportingService.maxErrors`. -/
def maxErrors : Nat := 100

/-- The observable state of the error reporting service: the in-memory
report list and the parsed content of `localStorage['error_reports']`. -/
structure ERState (R : Type) where
  errors : List R
  reportStorage : Option (List R)
deriving DecidableEq

/-- One `storeError` call; `canWrite` tells whether the
`localStorage.setItem` call succeeds (a failure is swallowed). -/
def storeError {R : Type} (canWrite : Bool) (st : ERState R) (r : R) : ERState R :=
  let pushed := st.errors ++ [r]
  let trimmed := if maxErrors < pushed.length then pushed.drop (pushed.length - maxErrors) else pushed
  { errors := trimmed
    reportStorage := if canWrite then some (trimmed.drop (trimmed.length - 10)) else st.reportStorage }

/-!
## Claims
-/

/-- C4 counterexample: the source wraps `localStorage.setItem` in
try/catch and swallows the failure, so a state-changing `setState`
does *not* always leave the new state in storage.  In an environment
where the write throws, starting from persisted `{x: 0}`, after
`setState({x: 1})` the state is `{x: 1}` and one notification ran, but
the storage slot still holds the old `{x: 0}`. -/
theorem createStore_persist_failure_counterexample :
    (setState (StoreState.mk true false [("x", (0 : Nat))] (some [("x", 0)]) 0)
        [("x", 1)]).state = [("x", (1 : Nat))] ∧
    (setState (StoreState.mk true false [("x", (0 : Nat))] (some [("x", 0)]) 0)
        [("x", 1)]).storage = some [("x", (0 : Nat))] ∧
    (setState (StoreState.mk true false [("x", (0 : Nat))] (some [("x", 0)]) 0)
        [("x", 1)]).notifications = 1 := by
  decide

/-- C4 (amended): a store created with a `persistKey` starts from
`initialState` merged with the JSON-parsed persisted object under the
key — persisted fields overriding initial ones, the initial state kept
unchanged when loading or parsing fails — and every `setState` call
that changes the state writes the JSON serialization of the new full
state to the `localStorage` slot provided the write succeeds; a
`localStorage.setItem` failure is swallowed, leaving the previous
persisted value while the state still changes and the listeners are
still notified.  Browser local storage is the only persistence the
store uses. -/
theorem createStore_persistKey_spec (V : Type) [DecidableEq V]
    (i p : Obj V) (s : StoreState V) (q : Obj V)
    (hp : (keys p).Nodup) (hpersist : s.persist = true)
    (hchange : (setState s q).state ≠ s.state) :
    createStoreInit i (some p) = spread i p ∧
    (∀ k, k ∈ keys p → getVal (createStoreInit i (some p)) k = getVal p k) ∧
    (∀ k, k ∉ keys p → getVal (createStoreInit i (some p)) k = getVal i k) ∧
    createStoreInit i none = i ∧
    (s.storageOk = true → (setState s q).storage = some ((setState s q).state)) ∧
    (s.storageOk = false → (setState s q).storage = s.storage) ∧
    (setState s q).notifications = s.notifications + 1 := by
  have hst := setState_changed s q hchange
  refine ⟨rfl, ?_, ?_, rfl, ?_, ?_, hst.2⟩
  · intro k hk
    exact getVal_spread_mem i p k hp hk
  · intro k hk
    exact getVal_spread_not_mem i p k hk
  · intro hok
    have h1 := hst.1
    rw [hpersist, hok] at h1
    simpa using h1
  · intro hok
    have h1 := hst.1
    rw [hpersist, hok] at h1
    simpa using h1

theorem createStore_persistKey_spec_witness :
    (setState (StoreState.mk true true [("x", (0 : Nat))] none 0) [("x", 1)]).storage =
      some ((setState (StoreState.mk true true [("x", (0 : Nat))] none 0) [("x", 1)]).state) :=
  (createStore_persistKey_spec Nat [("a", 1)] [("a", 2), ("b", 3)]
    (StoreState.mk true true [("x", 0)] none 0) [("x", 1)]
    (by decide) rfl (by decide)).2.2.2.2.1 rfl

/-- C6: store updates are last-write-wins merges.  After applying the
partial updates `p1` then `p2` through `setState`, every key of `p2`
has its `p2` value, every key of `p1` outside `p2` has its `p1` value,
every other key keeps its value from the starting state, and no key of
the starting state is ever removed. -/
theorem setState_lastWriteWins (V : Type) [DecidableEq V]
    (s : StoreState V) (p1 p2 : Obj V)
    (hnd : (keys s.state).Nodup) (h1 : (keys p1).Nodup) (h2 : (keys p2).Nodup) :
    (∀ k, k ∈ keys p2 →
      getVal (setState (setState s p1) p2).state k = getVal p2 k) ∧
    (∀ k, k ∉ keys p2 → k ∈ keys p1 →
      getVal (setState (setState s p1) p2).state k = getVal p1 k) ∧
    (∀ k, k ∉ keys p2 → k ∉ keys p1 →
      getVal (setState (setState s p1) p2).state k = getVal s.state k) ∧
    (∀ k, k ∈ keys s.state → k ∈ keys (setState (setState s p1) p2).state) := by
  have hs1 : (setState s p1).state = spread s.state p1 := setState_state s p1 hnd
  have hn1 : (keys (setState s p1).state).Nodup := nodup_setState s p1 hnd
  have hs2 : (setState (setState s p1) p2).state = spread (setState s p1).state p2 :=
    setState_state (setState s p1) p2 hn1
  refine ⟨?_, ?_, ?_, ?_⟩
  · intro k hk
    rw [hs2]
    exact getVal_spread_mem _ p2 k h2 hk
  · intro k hk2 hk1
    rw [hs2, getVal_spread_not_mem _ p2 k hk2, hs1]
    exact getVal_spread_mem _ p1 k h1 hk1
  · intro k hk2 hk1
    rw [hs2, getVal_spread_not_mem _ p2 k hk2, hs1]
    exact getVal_spread_not_mem _ p1 k hk1
  · intro k hk
    rw [hs2, hs1]
    exact (mem_keys_spread _ p2 k).mpr (Or.inl ((mem_keys_spread _ p1 k).mpr (Or.inl hk)))

theorem setState_lastWriteWins_witness :
    getVal (setState (setState (StoreState.mk false true [("a", (1 : Nat)), ("b", 2)] none 0)
        [("b", 3), ("c", 4)]) [("c", 5)]).state "c" = getVal [("c", (5 : Nat))] "c" :=
  (setState_lastWriteWins Nat (StoreState.mk false true [("a", 1), ("b", 2)] none 0)
    [("b", 3), ("c", 4)] [("c", 5)] (by decide) (by decide) (by decide)).1 "c" (by decide)

/-- C8: a `setState` whose merged result is shallow-equal to the
current state — same keys, identical value at every key — is a
complete no-op: the state object, the listeners' notification count
and the `localStorage` slot are all left untouched. -/
theorem setState_shallowEqual_noop (V : Type) [DecidableEq V]
    (s : StoreState V) (p : Obj V) (hnd : (keys s.state).Nodup)
    (hk : keys (spread s.state p) = keys s.state)
    (hv : ∀ k, getVal (spread s.state p) k = getVal s.state k) :
    setState s p = s := by
  have hknd : (keys (spread s.state p)).Nodup := by
    rw [hk]
    exact hnd
  have heq : spread s.state p = s.state :=
    obj_eq_of_getVal_eq (spread s.state p) s.state hk hknd hv
  unfold setState
  rw [heq, if_pos (shallowEqual_self s.state)]

theorem setState_shallowEqual_noop_witness :
    setState (StoreState.mk true true [("a", (1 : Nat))] (some [("a", 1)]) 5) [("a", 1)] =
      StoreState.mk true true [("a", (1 : Nat))] (some [("a", 1)]) 5 :=
  setState_shallowEqual_noop Nat (StoreState.mk true true [("a", 1)] (some [("a", 1)]) 5)
    [("a", 1)] (by decide) (by decide) (fun k => rfl)

theorem storeError_errors_eq (R : Type) (c : Bool) (st : ERState R) (r : R) :
    (storeError c st r).errors =
      (st.errors ++ [r]).drop ((st.errors ++ [r]).length - maxErrors) := by
  simp only [storeError]
  by_cases hlen : maxErrors < (st.errors ++ [r]).length
  · rw [if_pos hlen]
  · rw [if_neg hlen]
    push_neg at hlen
    have h0 : (st.errors ++ [r]).length - maxErrors = 0 := by omega
    rw [h0, List.drop_zero]

theorem storeError_storage_eq (R : Type) (c : Bool) (st : ERState R) (r : R) :
    (storeError c st r).reportStorage =
      if c then
        some ((storeError c st r).errors.drop ((storeError c st r).errors.length - 10))
      else st.reportStorage := rfl

/-- C10: the error reporting service keeps a bounded history: after a
`storeError` call the in-memory list has at most `maxErrors = 100`
entries and is a recency-ordered suffix of the arrival sequence ending
in the new report; when the `localStorage` write succeeds the
persisted copy is the at-most-10 most recent reports, and a write
failure is swallowed without affecting the in-memory list. -/
theorem errorReporting_bounded_history (R : Type) (canWrite : Bool)
    (st : ERState R) (r : R) :
    (storeError canWrite st r).errors.length ≤ maxErrors ∧
    (∃ n, (storeError canWrite st r).errors = (st.errors ++ [r]).drop n) ∧
    (storeError canWrite st r).errors.getLast? = some r ∧
    (canWrite = true →
      (storeError canWrite st r).reportStorage =
        some ((storeError canWrite st r).errors.drop
          ((storeError canWrite st r).errors.length - 10)) ∧
      ((storeError canWrite st r).errors.drop
          ((storeError canWrite st r).errors.length - 10)).length ≤ 10) ∧
    (canWrite = false →
      (storeError canWrite st r).reportStorage = st.reportStorage ∧
      (storeError canWrite st r).errors = (storeError true st r).errors) := by
  have hlen1 : 1 ≤ (st.errors ++ [r]).length := by
    rw [List.length_append]
    simp
  refine ⟨?_, ⟨_, storeError_errors_eq R canWrite st r⟩, ?_, ?_, ?_⟩
  · rw [storeError_errors_eq, List.length_drop]
    have hm : maxErrors = 100 := rfl
    omega
  · rw [storeError_errors_eq, List.getLast?_drop, if_neg, List.getLast?_concat]
    have hm : maxErrors = 100 := rfl
    omega
  · intro hcw
    constructor
    · rw [storeError_storage_eq, if_pos hcw]
    · rw [List.length_drop]
      omega
  · intro hcw
    constructor
    · rw [storeError_storage_eq, if_neg]
      rw [hcw]
      simp
    · rw [storeError_errors_eq, storeError_errors_eq]

theorem errorReporting_bounded_history_witness :
    (storeError true (ERState.mk [(1 : Nat), 2] none) 3).errors.getLast? = some 3 :=
  (errorReporting_bounded_history Nat true (ERState.mk [1, 2] none) 3).2.2.1

/-- C7: with no captured error (`hasError` false or `error` null) the
boundary renders its children unchanged; with a captured error it
renders the caller-supplied fallback when given and otherwise the
default fallback picked by its `level` prop (defaulting to
`'component'`); the captured error is never rethrown to the parent
(`render` is total on every props/state). -/
theorem advancedErrorBoundary_render_spec (E A : Type)
    (p : EBProps E A) (st : EBState E) :
    (st.hasError = false ∨ st.error = none →
      render p st = RenderResult.children p.children) ∧
    (∀ e, st.hasError = true → st.error = some e →
      (∀ f, p.fallback = some f → render p st = RenderResult.custom (f e)) ∧
      (p.fallback = none →
        render p st = RenderResult.defaultFallback (p.level.getD Level.component))) := by
  obtain ⟨ch, fb, lv⟩ := p
  obtain ⟨hasE, err, rc⟩ := st
  constructor
  · rintro (h | h)
    · subst h
      cases err <;> rfl
    · subst h
      cases hasE <;> rfl
  · rintro e hh he
    subst hh
    subst he
    constructor
    · rintro f hf
      subst hf
      rfl
    · intro hf
      subst hf
      rfl

theorem advancedErrorBoundary_render_spec_witness :
    render (EBProps.mk (7 : Nat) (none : Option (Nat → Nat)) (some Level.page))
        (EBState.mk true (some (3 : Nat)) 0) =
      RenderResult.defaultFallback Level.page :=
  ((advancedErrorBoundary_render_spec Nat Nat
      (EBProps.mk 7 none (some Level.page)) (EBState.mk true (some 3) 0)).2
    3 rfl rfl).2 rfl

/-- C3 counterexample: the error-handling path of
`AdvancedErrorBoundary.componentDidCatch` — which has nothing to do
with dynamic UI-chunk loading — also schedules delayed automatic
retries with exponentially growing delays: for `level = 'component'`
and `retryCount = 0` a retry is scheduled, and the successive delays
1000 ms, 2000 ms, 4000 ms each double the previous one. -/
theorem errorBoundary_backoff_counterexample :
    autoRetryOnCatch (some Level.component) 0 = true ∧
    scheduleRetryDelay 0 = 1000 ∧
    scheduleRetryDelay 1 = 2 * scheduleRetryDelay 0 ∧
    scheduleRetryDelay 2 = 2 * scheduleRetryDelay 1 := by
  decide

/-- C3 (amended): the program has *two* exponential-backoff retry
paths, not one: `retryImport` for dynamic chunk loading, and the
automatic component-level retry of `AdvancedErrorBoundary`, which
fires exactly when `level = 'component'` and fewer than `maxRetries`
retries have run, with delay `2 ^ retryCount * 1000` ms; in both paths
each successive delay doubles the previous one. -/
theorem backoff_retry_paths (n : Nat) (lv : Option Level) :
    scheduleRetryDelay (n + 1) = 2 * scheduleRetryDelay n ∧
    (autoRetryOnCatch lv n = true ↔ lv = some Level.component ∧ n < maxRetries) ∧
    retryDelay n = 2 * retryDelay (n + 1) := by
  refine ⟨?_, ?_, ?_⟩
  · unfold scheduleRetryDelay
    ring
  · unfold autoRetryOnCatch
    simp
  · unfold retryDelay
    have h3 : (3 : ℤ) - (n : ℤ) = ((3 : ℤ) - ((n + 1 : Nat) : ℤ)) + 1 := by
      push_cast
      ring
    rw [h3, zpow_add_one₀ (by norm_num : (2 : ℚ) ≠ 0)]
    ring

theorem loadingKey_ne_errorKey (name : String) :
    name ++ "Loading" ≠ name ++ "Error" := by
  intro h
  have h2 := congrArg String.length h
  simp [String.length_append] at h2
  exact absurd h2 (by decide)

/-- C9: an action built by `createAsyncAction` under name `n` first
sets `nLoading` to `true` and `nError` to `null`; when the wrapped
async function resolves it sets `nLoading` to `false`, leaves `nError`
null and returns the result; when it rejects it sets `nLoading` to
`false`, records the error under `nError` and rethrows it. -/
theorem createAsyncAction_spec (name : String) (res : Except JVal JVal)
    (s : StoreState JVal) (hnd : (keys s.state).Nodup) :
    getVal (asyncActionStart name s).state (name ++ "Loading") = some (JVal.bool true) ∧
    getVal (asyncActionStart name s).state (name ++ "Error") = some JVal.null ∧
    (∀ r, res = Except.ok r →
      (runAsyncAction name res s).2 = Except.ok r ∧
      getVal (runAsyncAction name res s).1.state (name ++ "Loading") =
        some (JVal.bool false) ∧
      getVal (runAsyncAction name res s).1.state (name ++ "Error") = some JVal.null) ∧
    (∀ e, res = Except.error e →
      (runAsyncAction name res s).2 = Except.error e ∧
      getVal (runAsyncAction name res s).1.state (name ++ "Loading") =
        some (JVal.bool false) ∧
      getVal (runAsyncAction name res s).1.state (name ++ "Error") = some e) := by
  have hne : name ++ "Loading" ≠ name ++ "Error" := loadingKey_ne_errorKey name
  have hpair : (keys [(name ++ "Loading", JVal.bool true),
      (name ++ "Error", JVal.null)]).Nodup := by
    simp [hne]
  have hstart : (asyncActionStart name s).state =
      spread s.state [(name ++ "Loading", JVal.bool true), (name ++ "Error", JVal.null)] := by
    unfold asyncActionStart
    exact setState_state s _ hnd
  have hn1 : (keys (asyncActionStart name s).state).Nodup := by
    unfold asyncActionStart
    exact nodup_setState s _ hnd
  refine ⟨?_, ?_, ?_, ?_⟩
  · rw [hstart, getVal_spread_mem _ _ _ hpair (by simp), getVal_cons, if_pos rfl]
  · rw [hstart, getVal_spread_mem _ _ _ hpair (by simp), getVal_cons, if_neg hne,
      getVal_cons, if_pos rfl]
  · rintro r rfl
    have hfin : (runAsyncAction name (Except.ok r) s).1.state =
        spread (asyncActionStart name s).state [(name ++ "Loading", JVal.bool false)] := by
      show (setState (asyncActionStart name s) [(name ++ "Loading", JVal.bool false)]).state = _
      exact setState_state _ _ hn1
    refine ⟨rfl, ?_, ?_⟩
    · rw [hfin, getVal_spread_mem _ _ _ (by simp) (by simp), getVal_cons, if_pos rfl]
    · rw [hfin, getVal_spread_not_mem _ _ _ (by simp [Ne.symm hne]), hstart,
        getVal_spread_mem _ _ _ hpair (by simp), getVal_cons, if_neg hne,
        getVal_cons, if_pos rfl]
  · rintro e rfl
    have hpair2 : (keys [(name ++ "Loading", JVal.bool false),
        (name ++ "Error", e)]).Nodup := by
      simp [hne]
    have hfin : (runAsyncAction name (Except.error e) s).1.state =
        spread (asyncActionStart name s).state
          [(name ++ "Loading", JVal.bool false), (name ++ "Error", e)] := by
      show (setState (asyncActionStart name s)
        [(name ++ "Loading", JVal.bool false), (name ++ "Error", e)]).state = _
      exact setState_state _ _ hn1
    refine ⟨rfl, ?_, ?_⟩
    · rw [hfin, getVal_spread_mem _ _ _ hpair2 (by simp), getVal_cons, if_pos rfl]
    · rw [hfin, getVal_spread_mem _ _ _ hpair2 (by simp), getVal_cons, if_neg hne,
        getVal_cons, if_pos rfl]

theorem createAsyncAction_spec_witness :
    getVal (asyncActionStart "login" (StoreState.mk false true [] none 0)).state
        ("login" ++ "Loading") = some (JVal.bool true) :=
  (createAsyncAction_spec "login" (Except.ok (JVal.num 1))
    (StoreState.mk false true [] none 0) (by decide)).1

/-- C1 counterexample: the revert step of `createOptimisticAction` is a
*merge* (`setState(currentState)` spreads the saved state onto the
current one), so a key that the optimistic partial update introduced
is not removed.  Starting from state `{a: 1}` with optimistic partial
`{b: 2}` and a rejecting async function, the final state is
`{a: 1, b: 2}` — not the saved `{a: 1}` — with the newly introduced
key `b` still carrying its optimistic value `2`; the error is still
rethrown. -/
theorem createOptimisticAction_counterexample :
    (runOptimisticAction Nat Nat (fun _ => [("b", (2 : Nat))]) (Except.error 0)
        (StoreState.mk false true [("a", 1)] none 0)).1.state ≠ [("a", (1 : Nat))] ∧
    (runOptimisticAction Nat Nat (fun _ => [("b", (2 : Nat))]) (Except.error 0)
        (StoreState.mk false true [("a", 1)] none 0)).1.state =
      [("a", (1 : Nat)), ("b", 2)] ∧
    getVal (runOptimisticAction Nat Nat (fun _ => [("b", (2 : Nat))]) (Except.error 0)
        (StoreState.mk false true [("a", 1)] none 0)).1.state "b" = some 2 ∧
    (runOptimisticAction Nat Nat (fun _ => [("b", (2 : Nat))]) (Except.error 0)
        (StoreState.mk false true [("a", 1)] none 0)).2 = Except.error 0 := by
  refine ⟨by decide, by decide, by decide, rfl⟩

/-- C1 (amended): invoking an optimistic action immediately applies the
optimistic partial update as a merge onto the state; if the async
function rejects (and itself performed no state change), the error is
rethrown and every key present before the update is restored to its
saved value — the restoration is the exact saved state whenever the
optimistic partial touches only keys that already exist, while a key
newly introduced by the optimistic partial survives the revert with
its optimistic value. -/
theorem createOptimisticAction_revert (V : Type) [DecidableEq V] (E R : Type)
    (upd : Obj V → Obj V) (e : E) (s : StoreState V)
    (hnd : (keys s.state).Nodup) :
    (optimisticActionStart upd s).state = spread s.state (upd s.state) ∧
    (runOptimisticAction E R upd (Except.error e) s).2 = Except.error e ∧
    (∀ k, k ∈ keys s.state →
      getVal (runOptimisticAction E R upd (Except.error e) s).1.state k =
        getVal s.state k) ∧
    (∀ k, k ∉ keys s.state →
      getVal (runOptimisticAction E R upd (Except.error e) s).1.state k =
        getVal (optimisticActionStart upd s).state k) ∧
    ((∀ k, k ∈ keys (upd s.state) → k ∈ keys s.state) →
      (runOptimisticAction E R upd (Except.error e) s).1.state = s.state) := by
  have hstart : (optimisticActionStart upd s).state = spread s.state (upd s.state) :=
    setState_state s (upd s.state) hnd
  have hn1 : (keys (optimisticActionStart upd s).state).Nodup :=
    nodup_setState s (upd s.state) hnd
  have hfin : (runOptimisticAction E R upd (Except.error e) s).1.state =
      spread (optimisticActionStart upd s).state s.state := by
    show (setState (optimisticActionStart upd s) s.state).state = _
    exact setState_state _ _ hn1
  refine ⟨hstart, rfl, ?_, ?_, ?_⟩
  · intro k hk
    rw [hfin]
    exact getVal_spread_mem _ s.state k hnd hk
  · intro k hk
    rw [hfin]
    exact getVal_spread_not_mem _ s.state k hk
  · intro hsub
    rw [hfin]
    have hkeys1 : keys (optimisticActionStart upd s).state = keys s.state := by
      rw [hstart]
      exact keys_spread_of_subset s.state (upd s.state) hsub
    have hkeys2 : keys (spread (optimisticActionStart upd s).state s.state) =
        keys s.state := by
      rw [keys_spread_of_subset _ s.state, hkeys1]
      intro k hk
      rw [hkeys1]
      exact hk
    refine obj_eq_of_getVal_eq _ s.state hkeys2 (nodup_keys_spread _ s.state hn1) ?_
    intro k
    by_cases hk : k ∈ keys s.state
    · rw [getVal_spread_mem _ s.state k hnd hk]
    · rw [getVal_spread_not_mem _ s.state k hk]
      have h1 : getVal (optimisticActionStart upd s).state k = none := by
        apply (getVal_eq_none_iff _ k).mpr
        rw [hkeys1]
        exact hk
      have h2 : getVal s.state k = none := (getVal_eq_none_iff _ k).mpr hk
      rw [h1, h2]

theorem createOptimisticAction_revert_witness :
    (runOptimisticAction Nat Nat (fun _ => [("a", (5 : Nat))]) (Except.error 7)
        (StoreState.mk false true [("a", 1), ("b", 2)] none 0)).1.state =
      [("a", (1 : Nat)), ("b", 2)] :=
  (createOptimisticAction_revert Nat Nat Nat (fun _ => [("a", 5)]) 7
      (StoreState.mk false true [("a", 1), ("b", 2)] none 0) (by decide)).2.2.2.2
    (by
      intro k hk
      simp [keys] at hk
      simp [keys, hk])

theorem retryDelay_succ (r : Nat) : retryDelay r = 2 * retryDelay (r + 1) := by
  unfold retryDelay
  have h3 : (3 : ℤ) - (r : ℤ) = ((3 : ℤ) - ((r + 1 : Nat) : ℤ)) + 1 := by
    push_cast
    ring
  rw [h3, zpow_add_one₀ (by norm_num : (2 : ℚ) ≠ 0)]
  ring

theorem retryDelay_mul_pow (r k : Nat) :
    retryDelay r * (2 : ℚ) ^ k = (2 : ℚ) ^ ((3 : ℤ) - (r : ℤ) + (k : ℤ)) * 1000 := by
  unfold retryDelay
  rw [zpow_add₀ (by norm_num : (2 : ℚ) ≠ 0) ((3 : ℤ) - (r : ℤ)) (k : ℤ), zpow_natCast]
  ring


section RetryImportLemmas

variable {E A : Type} (attempt attemptB : Nat → Except E A)

theorem retryImport_ok (r i : Nat) (a : A) (h : attempt i = Except.ok a) :
    retryImport attempt r i = (Except.ok a, []) := by
  cases r with
  | zero =>
    have key : retryImport attempt 0 i =
        match attempt i with
        | Except.ok a => (Except.ok a, [])
        | Except.error e => (Except.error e, []) := rfl
    rw [key, h]
  | succ r2 =>
    have key : retryImport attempt (r2 + 1) i =
        match attempt i with
        | Except.ok a => (Except.ok a, [])
        | Except.error _ =>
          ((retryImport attempt r2 (i + 1)).1,
            retryDelay (r2 + 1) :: (retryImport attempt r2 (i + 1)).2) := rfl
    rw [key, h]

theorem retryImport_zero_err (i : Nat) (e : E) (h : attempt i = Except.error e) :
    retryImport attempt 0 i = (Except.error e, []) := by
  have key : retryImport attempt 0 i =
      match attempt i with
      | Except.ok a => (Except.ok a, [])
      | Except.error e => (Except.error e, []) := rfl
  rw [key, h]

theorem retryImport_succ_err (r2 i : Nat) (e : E) (h : attempt i = Except.error e) :
    retryImport attempt (r2 + 1) i =
      ((retryImport attempt r2 (i + 1)).1,
        retryDelay (r2 + 1) :: (retryImport attempt r2 (i + 1)).2) := by
  have key : retryImport attempt (r2 + 1) i =
      match attempt i with
      | Except.ok a => (Except.ok a, [])
      | Except.error _ =>
        ((retryImport attempt r2 (i + 1)).1,
          retryDelay (r2 + 1) :: (retryImport attempt r2 (i + 1)).2) := rfl
  rw [key, h]

theorem retryImport_succ_err_fst (r2 i : Nat) (e : E) (h : attempt i = Except.error e) :
    (retryImport attempt (r2 + 1) i).1 = (retryImport attempt r2 (i + 1)).1 := by
  rw [retryImport_succ_err attempt r2 i e h]

theorem retryImport_succ_err_snd (r2 i : Nat) (e : E) (h : attempt i = Except.error e) :
    (retryImport attempt (r2 + 1) i).2 =
      retryDelay (r2 + 1) :: (retryImport attempt r2 (i + 1)).2 := by
  rw [retryImport_succ_err attempt r2 i e h]

theorem retryImport_len : ∀ r i, (retryImport attempt r i).2.length ≤ r := by
  intro r
  induction r with
  | zero =>
    intro i
    cases hat : attempt i with
    | ok a =>
      rw [retryImport_ok attempt 0 i a hat]
      simp
    | error e =>
      rw [retryImport_zero_err attempt i e hat]
      simp
  | succ r2 ih =>
    intro i
    cases hat : attempt i with
    | ok a =>
      rw [retryImport_ok attempt (r2 + 1) i a hat]
      simp
    | error e =>
      rw [retryImport_succ_err_snd attempt r2 i e hat]
      rw [List.length_cons]
      exact Nat.succ_le_succ (ih (i + 1))

theorem retryImport_frame :
    ∀ r i, (∀ j, j ≤ r → attempt (i + j) = attemptB (i + j)) →
      retryImport attempt r i = retryImport attemptB r i := by
  intro r
  induction r with
  | zero =>
    intro i h
    have h0 := h 0 (Nat.le_refl 0)
    rw [Nat.add_zero] at h0
    cases hat : attempt i with
    | ok a =>
      rw [retryImport_ok attempt 0 i a hat,
        retryImport_ok attemptB 0 i a (h0.symm.trans hat)]
    | error e =>
      rw [retryImport_zero_err attempt i e hat,
        retryImport_zero_err attemptB i e (h0.symm.trans hat)]
  | succ r2 ih =>
    intro i h
    have h0 := h 0 (Nat.zero_le _)
    rw [Nat.add_zero] at h0
    have hrec : retryImport attempt r2 (i + 1) = retryImport attemptB r2 (i + 1) := by
      apply ih
      intro j hj
      have h2 : i + 1 + j = i + (j + 1) := by omega
      rw [h2]
      exact h (j + 1) (Nat.succ_le_succ hj)
    cases hat : attempt i with
    | ok a =>
      rw [retryImport_ok attempt (r2 + 1) i a hat,
        retryImport_ok attemptB (r2 + 1) i a (h0.symm.trans hat)]
    | error e =>
      rw [retryImport_succ_err attempt r2 i e hat,
        retryImport_succ_err attemptB r2 i e (h0.symm.trans hat), hrec]

theorem retryImport_first_ok :
    ∀ r i j a, j ≤ r → attempt (i + j) = Except.ok a →
      (∀ d, d < j → isRejected (attempt (i + d)) = true) →
      (retryImport attempt r i).1 = Except.ok a := by
  intro r
  induction r with
  | zero =>
    intro i j a hj hok hfail
    have hj0 : j = 0 := Nat.le_zero.mp hj
    subst hj0
    rw [Nat.add_zero] at hok
    rw [retryImport_ok attempt 0 i a hok]
  | succ r2 ih =>
    intro i j a hj hok hfail
    cases j with
    | zero =>
      rw [Nat.add_zero] at hok
      rw [retryImport_ok attempt (r2 + 1) i a hok]
    | succ j2 =>
      have h0 : isRejected (attempt (i + 0)) = true := hfail 0 (Nat.succ_pos j2)
      rw [Nat.add_zero] at h0
      cases hat : attempt i with
      | ok b =>
        rw [hat] at h0
        simp [isRejected] at h0
      | error e =>
        rw [retryImport_succ_err_fst attempt r2 i e hat]
        apply ih (i + 1) j2 a (Nat.le_of_succ_le_succ hj)
        · have h1 : i + 1 + j2 = i + (j2 + 1) := by omega
          rw [h1]
          exact hok
        · intro d hd
          have h2 : i + 1 + d = i + (d + 1) := by omega
          rw [h2]
          exact hfail (d + 1) (Nat.succ_lt_succ hd)

theorem retryImport_all_fail :
    ∀ r i, (∀ j, j ≤ r → isRejected (attempt (i + j)) = true) →
      (retryImport attempt r i).1 = attempt (i + r) := by
  intro r
  induction r with
  | zero =>
    intro i h
    have h0 := h 0 (Nat.le_refl 0)
    rw [Nat.add_zero] at h0
    rw [Nat.add_zero]
    cases hat : attempt i with
    | ok a =>
      rw [hat] at h0
      simp [isRejected] at h0
    | error e =>
      rw [retryImport_zero_err attempt i e hat]
  | succ r2 ih =>
    intro i h
    have h0 := h 0 (Nat.zero_le _)
    rw [Nat.add_zero] at h0
    cases hat : attempt i with
    | ok a =>
      rw [hat] at h0
      simp [isRejected] at h0
    | error e =>
      rw [retryImport_succ_err_fst attempt r2 i e hat]
      have harith : i + (r2 + 1) = (i + 1) + r2 := by omega
      rw [harith]
      apply ih
      intro j hj
      have h2 : i + 1 + j = i + (j + 1) := by omega
      rw [h2]
      exact h (j + 1) (Nat.succ_le_succ hj)

theorem retryImport_delays_get :
    ∀ r i k, k < (retryImport attempt r i).2.length →
      (retryImport attempt r i).2.get? k = some (retryDelay r * (2 : ℚ) ^ k) := by
  intro r
  induction r with
  | zero =>
    intro i k hk
    exfalso
    cases hat : attempt i with
    | ok a =>
      rw [retryImport_ok attempt 0 i a hat] at hk
      simp at hk
    | error e =>
      rw [retryImport_zero_err attempt i e hat] at hk
      simp at hk
  | succ r2 ih =>
    intro i k hk
    cases hat : attempt i with
    | ok a =>
      rw [retryImport_ok attempt (r2 + 1) i a hat] at hk
      simp at hk
    | error e =>
      rw [retryImport_succ_err_snd attempt r2 i e hat] at hk ⊢
      cases k with
      | zero =>
        rw [List.get?_cons_zero, pow_zero, mul_one]
      | succ k2 =>
        rw [List.get?_cons_succ]
        have hk2 : k2 < (retryImport attempt r2 (i + 1)).2.length := by
          rw [List.length_cons] at hk
          omega
        rw [ih (i + 1) k2 hk2, retryDelay_succ r2]
        exact congrArg some (by ring)

end RetryImportLemmas

/-- C2: for every `retryCount` and import-attempt sequence,
`retryImport` consults at most the first `retryCount + 1` attempts and
performs at most `retryCount` retries; it returns the value of the
first succeeding attempt; the delay awaited before the `k`-th retry
(`k` 0-based here, so 1-based `k + 1` in the claim's numbering) is
`2 ^ (3 - retryCount + k) * 1000` ms, so each successive delay is
exactly double the previous one — `1000, 2000, 4000` ms for the
default `retryCount = 3`; and when every attempt fails the error of
the final attempt (`attempt retryCount`) is rethrown. -/
theorem retryImport_spec (E A : Type) (attempt attemptB : Nat → Except E A) (r : Nat) :
    (retryImport attempt r 0).2.length ≤ r ∧
    ((∀ j, j ≤ r → attempt j = attemptB j) →
      retryImport attempt r 0 = retryImport attemptB r 0) ∧
    (∀ j a, j ≤ r → attempt j = Except.ok a →
      (∀ d, d < j → isRejected (attempt d) = true) →
      (retryImport attempt r 0).1 = Except.ok a) ∧
    (∀ k, k < (retryImport attempt r 0).2.length →
      (retryImport attempt r 0).2.get? k =
        some ((2 : ℚ) ^ ((3 : ℤ) - (r : ℤ) + (k : ℤ)) * 1000)) ∧
    (∀ k, k + 1 < (retryImport attempt r 0).2.length →
      (retryImport attempt r 0).2.get? (k + 1) =
        ((retryImport attempt r 0).2.get? k).map (fun d => 2 * d)) ∧
    ((∀ j, j ≤ r → isRejected (attempt j) = true) →
      (retryImport attempt r 0).1 = attempt r) := by
  refine ⟨retryImport_len attempt r 0, ?_, ?_, ?_, ?_, ?_⟩
  · intro h
    apply retryImport_frame attempt attemptB r 0
    intro j hj
    rw [Nat.zero_add]
    exact h j hj
  · intro j a hj hok hfail
    apply retryImport_first_ok attempt r 0 j a hj
    · rw [Nat.zero_add]
      exact hok
    · intro d hd
      rw [Nat.zero_add]
      exact hfail d hd
  · intro k hk
    rw [retryImport_delays_get attempt r 0 k hk, retryDelay_mul_pow]
  · intro k hk
    have hk0 : k < (retryImport attempt r 0).2.length := by omega
    rw [retryImport_delays_get attempt r 0 (k + 1) hk,
        retryImport_delays_get attempt r 0 k hk0]
    show some (retryDelay r * (2 : ℚ) ^ (k + 1)) =
      some (2 * (retryDelay r * (2 : ℚ) ^ k))
    exact congrArg some (by ring)
  · intro h
    have hres := retryImport_all_fail attempt r 0 ?_
    · rw [Nat.zero_add] at hres
      exact hres
    · intro j hj
      rw [Nat.zero_add]
      exact h j hj

theorem retryImport_spec_witness :
    (retryImport (fun i => (Except.error i : Except Nat Nat)) 3 0).1 =
      (fun i => (Except.error i : Except Nat Nat)) 3 :=
  (retryImport_spec Nat Nat (fun i => Except.error i) (fun i => Except.error i)
    3).2.2.2.2.2 (fun _ _ => rfl)

theorem one_le_utf16Len (c : Char) : 1 ≤ utf16Len c := by
  unfold utf16Len
  split <;> omega

theorem string_ne_empty_utf16Length (v : String) (h : v ≠ "") : 1 ≤ utf16Length v := by
  cases v with
  | mk data =>
    cases data with
    | nil => exact absurd rfl h
    | cons c cs =>
      show 1 ≤ ((c :: cs).map utf16Len).sum
      rw [List.map_cons, List.sum_cons]
      have h1 := one_le_utf16Len c
      omega

theorem validateEmailOrUsername_none_iff (v : String) :
    validateEmailOrUsername v = none ↔ (v ≠ "" ∧ emailOrUsernameOk v = true) := by
  unfold validateEmailOrUsername
  by_cases h1 : utf16Length v < 1
  · rw [if_pos h1]
    have hv : v = "" := by
      by_contra hne
      have h2 := string_ne_empty_utf16Length v hne
      omega
    simp [hv]
  · rw [if_neg h1]
    have hv : v ≠ "" := by
      intro he
      subst he
      exact h1 (by decide)
    by_cases h2 : emailOrUsernameOk v = true
    · rw [if_pos h2]
      simp [hv, h2]
    · rw [if_neg h2]
      simp [hv, h2]

theorem validatePassword_none_iff (p : String) :
    validatePassword p = none ↔ (6 ≤ utf16Length p ∧ utf16Length p ≤ 128) := by
  unfold validatePassword
  by_cases h1 : utf16Length p < 6
  · rw [if_pos h1]
    simp
    omega
  · rw [if_neg h1]
    by_cases h2 : 128 < utf16Length p
    · rw [if_pos h2]
      simp
      omega
    · rw [if_neg h2]
      simp
      omega

/-- C5: `loginSchema` validation succeeds exactly when `emailOrUsername`
is a nonempty string that matches the email pattern
`^[^\s@]+@[^\s@]+\.[^\s@]+$` or has length at least 3 (in UTF-16 code
units, as JavaScript `.length` counts) with only characters of
`[a-zA-Z0-9_.-]`, and the `password` length is between 6 and 128 code
units; a successful parse returns the input value unchanged, and each
failing field contributes its configured error message to the issue
list while no value is returned. -/
theorem loginSchema_spec (inp : LoginInput) :
    (loginSchemaValidate inp = Except.ok inp ↔
      (inp.emailOrUsername ≠ "" ∧
        (emailRegexMatch inp.emailOrUsername = true ∨
          (3 ≤ utf16Length inp.emailOrUsername ∧
            inp.emailOrUsername.data.all usernameCharOk = true)) ∧
        6 ≤ utf16Length inp.password ∧ utf16Length inp.password ≤ 128)) ∧
    (∀ out, loginSchemaValidate inp = Except.ok out → out = inp) ∧
    (inp.emailOrUsername = "" →
      ∃ l, loginSchemaValidate inp = Except.error l ∧
        ("emailOrUsername", "Username or email is required") ∈ l) ∧
    (inp.emailOrUsername ≠ "" → emailOrUsernameOk inp.emailOrUsername = false →
      ∃ l, loginSchemaValidate inp = Except.error l ∧
        ("emailOrUsername",
          "Please enter a valid email address or username (min 3 characters)") ∈ l) ∧
    (utf16Length inp.password < 6 →
      ∃ l, loginSchemaValidate inp = Except.error l ∧
        ("password", "Password must be at least 6 characters") ∈ l) ∧
    (128 < utf16Length inp.password →
      ∃ l, loginSchemaValidate inp = Except.error l ∧
        ("password", "Password must be less than 128 characters") ∈ l) := by
  refine ⟨⟨?_, ?_⟩, ?_, ?_, ?_, ?_, ?_⟩
  · intro h
    unfold loginSchemaValidate at h
    cases he1 : validateEmailOrUsername inp.emailOrUsername with
    | none =>
      cases he2 : validatePassword inp.password with
      | none =>
        have hval := (validateEmailOrUsername_none_iff inp.emailOrUsername).mp he1
        have hpw := (validatePassword_none_iff inp.password).mp he2
        have hor : emailRegexMatch inp.emailOrUsername = true ∨
            (3 ≤ utf16Length inp.emailOrUsername ∧
              inp.emailOrUsername.data.all usernameCharOk = true) := by
          have h2 := hval.2
          unfold emailOrUsernameOk at h2
          rw [Bool.or_eq_true] at h2
          rcases h2 with h3 | h3
          · exact Or.inl h3
          · rw [Bool.and_eq_true] at h3
            exact Or.inr ⟨of_decide_eq_true h3.1, h3.2⟩
        exact ⟨hval.1, hor, hpw.1, hpw.2⟩
      | some m =>
        rw [he1, he2] at h
        simp at h
    | some m =>
      rw [he1] at h
      cases he2 : validatePassword inp.password with
      | none =>
        rw [he2] at h
        simp at h
      | some m2 =>
        rw [he2] at h
        simp at h
  · rintro ⟨hne, hor, hp6, hp128⟩
    have he1 : validateEmailOrUsername inp.emailOrUsername = none := by
      apply (validateEmailOrUsername_none_iff _).mpr
      refine ⟨hne, ?_⟩
      unfold emailOrUsernameOk
      rcases hor with h3 | ⟨h4, h5⟩
      · simp [h3]
      · simp [h4, h5]
    have he2 : validatePassword inp.password = none :=
      (validatePassword_none_iff _).mpr ⟨hp6, hp128⟩
    unfold loginSchemaValidate
    rw [he1, he2]
  · intro out h
    unfold loginSchemaValidate at h
    cases he1 : validateEmailOrUsername inp.emailOrUsername with
    | none =>
      cases he2 : validatePassword inp.password with
      | none =>
        rw [he1, he2] at h
        simp at h
        exact h.symm
      | some m =>
        rw [he1, he2] at h
        simp at h
    | some m =>
      rw [he1] at h
      cases he2 : validatePassword inp.password with
      | none =>
        rw [he2] at h
        simp at h
      | some m2 =>
        rw [he2] at h
        simp at h
  · intro he
    have he1 : validateEmailOrUsername inp.emailOrUsername =
        some "Username or email is required" := by
      rw [he]
      decide
    cases he2 : validatePassword inp.password with
    | none =>
      refine ⟨[("emailOrUsername", "Username or email is required")], ?_, ?_⟩
      · unfold loginSchemaValidate
        rw [he1, he2]
        rfl
      · simp
    | some m2 =>
      refine ⟨[("emailOrUsername", "Username or email is required"),
        ("password", m2)], ?_, ?_⟩
      · unfold loginSchemaValidate
        rw [he1, he2]
        rfl
      · simp
  · intro hne hbad
    have he1 : validateEmailOrUsername inp.emailOrUsername =
        some "Please enter a valid email address or username (min 3 characters)" := by
      unfold validateEmailOrUsername
      rw [if_neg (by have h1 := string_ne_empty_utf16Length _ hne; omega),
        if_neg (by simp [hbad])]
    cases he2 : validatePassword inp.password with
    | none =>
      refine ⟨[("emailOrUsername",
        "Please enter a valid email address or username (min 3 characters)")], ?_, ?_⟩
      · unfold loginSchemaValidate
        rw [he1, he2]
        rfl
      · simp
    | some m2 =>
      refine ⟨[("emailOrUsername",
        "Please enter a valid email address or username (min 3 characters)"),
        ("password", m2)], ?_, ?_⟩
      · unfold loginSchemaValidate
        rw [he1, he2]
        rfl
      · simp
  · intro hlow
    have he2 : validatePassword inp.password =
        some "Password must be at least 6 characters" := by
      unfold validatePassword
      rw [if_pos hlow]
    cases he1 : validateEmailOrUsername inp.emailOrUsername with
    | none =>
      refine ⟨[("password", "Password must be at least 6 characters")], ?_, ?_⟩
      · unfold loginSchemaValidate
        rw [he1, he2]
        rfl
      · simp
    | some m =>
      refine ⟨[("emailOrUsername", m),
        ("password", "Password must be at least 6 characters")], ?_, ?_⟩
      · unfold loginSchemaValidate
        rw [he1, he2]
        rfl
      · simp
  · intro hhigh
    have he2 : validatePassword inp.password =
        some "Password must be less than 128 characters" := by
      unfold validatePassword
      rw [if_neg (by omega), if_pos hhigh]
    cases he1 : validateEmailOrUsername inp.emailOrUsername with
    | none =>
      refine ⟨[("password", "Password must be less than 128 characters")], ?_, ?_⟩
      · unfold loginSchemaValidate
        rw [he1, he2]
        rfl
      · simp
    | some m =>
      refine ⟨[("emailOrUsername", m),
        ("password", "Password must be less than 128 characters")], ?_, ?_⟩
      · unfold loginSchemaValidate
        rw [he1, he2]
        rfl
      · simp

theorem loginSchema_spec_witness :
    loginSchemaValidate (LoginInput.mk "alice" "hunter42") =
      Except.ok (LoginInput.mk "alice" "hunter42") :=
  ((loginSchema_spec (LoginInput.mk "alice" "hunter42")).1).mpr
    ⟨by decide, Or.inr ⟨by decide, by decide⟩, by decide, by decide⟩
